import Mathlib

/-!
Shallow embedding of the currency-normalization and credit-allocation engine
of `src/second-test.ts` (with the earlier iterations in `src/unnamed/part_000`
and `src/unnamed/part_001` where a claim refers to them), together with proofs
of the spec's testable properties.

Monetary amounts are modelled as integers (`ℤ`); the JavaScript `Math.round`
applied to a real-valued intermediate (division by the exchange rate) is
modelled over `ℚ` as `⌊q + 1/2⌋`, which on non-negative inputs is exactly
JavaScript's round-half-up behaviour.

Effectful collaborators (the organization-settings lookup and the payment
POST endpoint) are modelled as explicit oracle functions returning `Except`,
and the sequential short-circuiting of `A.sequence(TE.ApplicativeSeq)` is
modelled by explicit recursion that additionally records the trace of calls
actually issued.
-/

namespace FpTs

/-- `Payment` from `src/types.ts`: `id`, `amount`, `status`. -/
structure Payment where
  id : String
  amount : ℤ
  status : String
deriving Repr, DecidableEq

/-- `Invoice` from `src/types.ts`: `reference` and `payments` are optional
(`t.union([…, t.undefined])`). -/
structure Invoice where
  id : String
  amount : ℤ
  organization_id : String
  currency : String
  type : String
  reference : Option String
  payments : Option (List Payment)
deriving Repr, DecidableEq

/-- The `OrgBatch` record of `src/second-test.ts` (lines 96–99). -/
structure OrgBatch where
  orgCurrency : String
  invoices : List Invoice
deriving Repr, DecidableEq

/-- A payment instruction: the pair pushed by `processPayments` as
`payPayment(payment.id, amountToPay)`. -/
structure PaymentInstruction where
  payment_id : String
  amountToPay : ℤ
deriving Repr, DecidableEq

/-- `PaymentResponse` from `src/types.ts`. -/
structure PaymentResponse where
  status : String
deriving Repr, DecidableEq

/-- The error union `FetchError | JsonParseError | SchemaParseError` that a
`getOrganizationCurrency` task can fail with (payload dropped). -/
inductive LookupError where
  | fetchError
  | jsonParseError
  | schemaParseError
deriving Repr, DecidableEq

/-- The `PaymentError` union of `src/second-test.ts` (lines 173–178),
payloads dropped. -/
inductive PaymentError where
  | jsonStringifyError
  | jsonParseError
  | postError
  | wrongAmountError
  | schemaParseError
deriving Repr, DecidableEq

/-- `const dollarInCLP = 800` (`src/second-test.ts` line 25). -/
def dollarInCLP : ℤ := 800

/-- JavaScript `Math.round`: round to nearest, ties toward `+∞`, i.e.
`⌊q + 1/2⌋`. -/
def jsRound (q : ℚ) : ℤ := ⌊q + 1 / 2⌋

/-- `normalizePayment` (`src/second-test.ts` lines 116–119):
returns a copy of the payment with `amount = Math.round(amount * factor)`. -/
def normalizePayment (payment : Payment) (factor : ℚ) : Payment :=
  { payment with amount := jsRound ((payment.amount : ℚ) * factor) }

/-- `normalizeOrgCurrency` (`src/second-test.ts` lines 121–151): map over the
batch's invoices; identity when the organization currency equals the invoice
currency, switch on the organization currency otherwise (`"CLP"` multiplies
by the rate, `"USD"` divides with rounding, any other value falls through to
`default` and returns the invoice unchanged). -/
def normalizeOrgCurrency (orgBatch : OrgBatch) : List Invoice :=
  let invoices := orgBatch.invoices
  let currency := orgBatch.orgCurrency
  invoices.map fun inv =>
    if currency = inv.currency then inv
    else if currency = "CLP" then
      { inv with
          amount := inv.amount * dollarInCLP
          payments := inv.payments.map fun pms =>
            pms.map fun pm => normalizePayment pm (dollarInCLP : ℚ)
          currency := "CLP" }
    else if currency = "USD" then
      { inv with
          amount := jsRound ((inv.amount : ℚ) / (dollarInCLP : ℚ))
          payments := inv.payments.map fun pms =>
            pms.map fun pm => normalizePayment pm (1 / (dollarInCLP : ℚ))
          currency := "USD" }
    else inv

/-- The body of the `reduce` in `processPayments` (`src/second-test.ts`
lines 182–192), run left-to-right over an explicit list, collecting the
`payPayment(id, amount)` instructions in push order. -/
def processPaymentsGo : List Payment → ℤ → List PaymentInstruction
  | [], _ => []
  | payment :: rest, amountToReduce =>
    if payment.status = "paid" then
      processPaymentsGo rest amountToReduce
    else if amountToReduce ≥ payment.amount then
      ⟨payment.id, 0⟩ :: processPaymentsGo rest (amountToReduce - payment.amount)
    else
      ⟨payment.id, payment.amount - amountToReduce⟩ :: processPaymentsGo rest 0

/-- `processPayments` (`src/second-test.ts` lines 180–194):
`payments.reverse().reduce(…, toReduce)`, collecting the emitted
instructions. -/
def processPayments (payments : List Payment) (toReduce : ℤ) : List PaymentInstruction :=
  processPaymentsGo payments.reverse toReduce

/-- `processPayments` with the mutation of its argument made explicit:
JavaScript `Array.prototype.reverse` reverses the array in place (and returns
it), so after the call the caller's array holds the reversed sequence. The
second component is the state of the caller's array after the call. -/
def processPaymentsMut (payments : List Payment) (toReduce : ℤ) :
    List PaymentInstruction × List Payment :=
  (processPaymentsGo payments.reverse toReduce, payments.reverse)

/-- Sum of the amounts of the non-paid payments of a list. -/
def sumNonpaidAmounts (payments : List Payment) : ℤ :=
  ((payments.filter fun p => p.status != "paid").map Payment.amount).sum

/-- Insert a string into a list, keeping an ascending list ascending
(the comparison `fp-ts`'s `S.Ord` uses). -/
def insertSorted (s : String) : List String → List String
  | [] => [s]
  | t :: ts => if s ≤ t then s :: t :: ts else t :: insertSorted s ts

/-- Insertion sort on strings, modelling the ascending-key order in which
`R.collect(S.Ord)` emits a record's entries. -/
def sortKeys : List String → List String
  | [] => []
  | k :: ks => insertSorted k (sortKeys ks)

/-- The distinct `organization_id` keys of a batch, in the ascending order in
which `R.collect(S.Ord)` enumerates the record built by `NEA.groupBy`
(`src/second-test.ts` lines 196–200). -/
def orgKeysSorted (invoices : List Invoice) : List String :=
  sortKeys (invoices.map Invoice.organization_id).dedup

/-- One step per organization group of `normalizeInvoicesCurrency`
(`src/second-test.ts` lines 196–204), with the settings lookup as an explicit
oracle. For each key in order: issue the lookup (recorded in the trace); on
failure the `TaskEither` chain short-circuits, so no later group's lookup
runs; on success `normalizeOrgCurrency` converts that organization's
invoices and the results are flattened. -/
def normalizeGroupsGo (lookup : String → Except LookupError String)
    (invoices : List Invoice) :
    List String → Except LookupError (List Invoice) × List String
  | [] => (.ok [], [])
  | k :: ks =>
    match lookup k with
    | .error e => (.error e, [k])
    | .ok cur =>
      let batch := normalizeOrgCurrency
        { orgCurrency := cur
          invoices := invoices.filter fun inv => inv.organization_id == k }
      match normalizeGroupsGo lookup invoices ks with
      | (.error e, tr) => (.error e, k :: tr)
      | (.ok rest, tr) => (.ok (batch ++ rest), k :: tr)

/-- `normalizeInvoicesCurrency` (`src/second-test.ts` lines 196–204) with the
organization-settings lookup as an explicit oracle: group by
`organization_id`, resolve each group's currency once, convert, flatten.
The second component is the trace of lookups actually issued. -/
def normalizeInvoicesCurrencyT (lookup : String → Except LookupError String)
    (invoices : List Invoice) :
    Except LookupError (List Invoice) × List String :=
  normalizeGroupsGo lookup invoices (orgKeysSorted invoices)

/-- `normalizeCurrency` of `src/unnamed/part_000` (lines 114–137): a
per-invoice normalizer that awaits the lookup itself and, on a failed lookup
(`E.isLeft(currencyOut)`), returns the invoice unchanged instead of failing.
`part_000` does not update the `currency` field on conversion. -/
def normalizeCurrencyP0 (lookup : String → Except LookupError String)
    (inv : Invoice) : Invoice :=
  match lookup inv.organization_id with
  | .error _ => inv
  | .ok currency =>
    if currency = inv.currency then inv
    else if currency = "CLP" then
      { inv with
          amount := inv.amount * dollarInCLP
          payments := inv.payments.map fun pms =>
            pms.map fun pm => normalizePayment pm (dollarInCLP : ℚ) }
    else if currency = "USD" then
      { inv with
          amount := jsRound ((inv.amount : ℚ) / (dollarInCLP : ℚ))
          payments := inv.payments.map fun pms =>
            pms.map fun pm => normalizePayment pm (1 / (dollarInCLP : ℚ)) }
    else inv

/-- Sequential execution of settlement instructions with an explicit submit
oracle, modelling `A.sequence(TE.ApplicativeSeq)` over the `payPayment`
tasks: instructions are submitted strictly left to right, and a failed
submission short-circuits the chain, so no later task runs. The second
component is the trace of instructions actually submitted. -/
def runInstructionsSeq (submit : PaymentInstruction → Except PaymentError PaymentResponse) :
    List PaymentInstruction →
    Except PaymentError (List PaymentResponse) × List PaymentInstruction
  | [] => (.ok [], [])
  | i :: rest =>
    match submit i with
    | .error e => (.error e, [i])
    | .ok r =>
      match runInstructionsSeq submit rest with
      | (.error e, tr) => (.error e, i :: tr)
      | (.ok rs, tr) => (.ok (r :: rs), i :: tr)

/-- The instruction list built in `secondTestMain` (`src/second-test.ts`
lines 222–237): partition into credit notes and received invoices having a
`payments` field, compute each received invoice's credit total from the
credit notes referencing it, run `processPayments`, and flatten. -/
def paymentPlan (invoices : List Invoice) : List PaymentInstruction :=
  let creditNotes := invoices.filter fun inv => inv.type == "credit_note"
  let receivedInvs := (invoices.filter fun inv => inv.type == "received").filter
    fun inv => inv.payments.isSome
  (receivedInvs.map fun inv =>
    let toReduce := (((creditNotes.filter fun cn => cn.reference == some inv.id).map
      Invoice.amount)).sum
    processPayments (inv.payments.getD []) toReduce).flatten

/-- `payInvoices` (`src/second-test.ts` lines 227–239) with the payment POST
as an explicit oracle: the flattened instruction list submitted by
`A.sequence(TE.ApplicativeSeq)`. -/
def payInvoices (submit : PaymentInstruction → Except PaymentError PaymentResponse)
    (invoices : List Invoice) :
    Except PaymentError (List PaymentResponse) × List PaymentInstruction :=
  runInstructionsSeq submit (paymentPlan invoices)

/-! ### Helper lemmas about the allocator -/

theorem sumNonpaidAmounts_nonneg (l : List Payment) (hl : ∀ p ∈ l, 0 ≤ p.amount) :
    0 ≤ sumNonpaidAmounts l := by
  unfold sumNonpaidAmounts
  refine List.sum_nonneg ?_
  intro x hx
  obtain ⟨p, hp, rfl⟩ := List.mem_map.mp hx
  exact hl p (List.mem_of_mem_filter hp)

theorem sumNonpaidAmounts_reverse (l : List Payment) :
    sumNonpaidAmounts l.reverse = sumNonpaidAmounts l := by
  unfold sumNonpaidAmounts
  rw [List.filter_reverse, List.map_reverse, List.sum_reverse]

theorem processPaymentsGo_map_payment_id (l : List Payment) (c : ℤ) :
    (processPaymentsGo l c).map PaymentInstruction.payment_id =
      (l.filter fun p => p.status != "paid").map Payment.id := by
  induction l generalizing c with
  | nil => simp [processPaymentsGo]
  | cons p l ih =>
    by_cases h : p.status = "paid"
    · simp [processPaymentsGo, h, ih]
    · by_cases h2 : c ≥ p.amount
      · simp [processPaymentsGo, h, h2, ih]
      · simp [processPaymentsGo, h, h2, ih]

theorem processPaymentsGo_filter (l : List Payment) (c : ℤ) :
    processPaymentsGo (l.filter fun p => p.status != "paid") c =
      processPaymentsGo l c := by
  induction l generalizing c with
  | nil => rfl
  | cons p l ih =>
    by_cases h : p.status = "paid"
    · simp [processPaymentsGo, h, ih]
    · by_cases h2 : c ≥ p.amount
      · simp [processPaymentsGo, h, h2, ih]
      · simp [processPaymentsGo, h, h2, ih]

theorem processPaymentsGo_sum (l : List Payment) (c : ℤ) (hc : 0 ≤ c)
    (hl : ∀ p ∈ l, 0 ≤ p.amount) :
    ((processPaymentsGo l c).map PaymentInstruction.amountToPay).sum =
      sumNonpaidAmounts l - min c (sumNonpaidAmounts l) := by
  induction l generalizing c with
  | nil =>
    simp [processPaymentsGo, sumNonpaidAmounts]
    omega
  | cons p l ih =>
    have hp : 0 ≤ p.amount := hl p (List.mem_cons_self p l)
    have hl2 : ∀ q ∈ l, 0 ≤ q.amount := fun q hq => hl q (List.mem_cons_of_mem p hq)
    have hTl : 0 ≤ sumNonpaidAmounts l := sumNonpaidAmounts_nonneg l hl2
    by_cases h : p.status = "paid"
    · have hS : sumNonpaidAmounts (p :: l) = sumNonpaidAmounts l := by
        simp [sumNonpaidAmounts, h]
      rw [hS]
      simpa [processPaymentsGo, h] using ih c hc hl2
    · have hS : sumNonpaidAmounts (p :: l) = p.amount + sumNonpaidAmounts l := by
        simp [sumNonpaidAmounts, h]
      by_cases h2 : c ≥ p.amount
      · rw [hS]
        have := ih (c - p.amount) (by omega) hl2
        simp [processPaymentsGo, h, h2, this]
        omega
      · rw [hS]
        have := ih 0 le_rfl hl2
        simp [processPaymentsGo, h, h2, this]
        omega

theorem processPaymentsGo_bounds (l : List Payment) (c : ℤ) (hc : 0 ≤ c)
    (hl : ∀ p ∈ l, 0 ≤ p.amount) :
    List.Forall₂
      (fun i p => i.payment_id = p.id ∧ 0 ≤ i.amountToPay ∧ i.amountToPay ≤ p.amount)
      (processPaymentsGo l c) (l.filter fun p => p.status != "paid") := by
  induction l generalizing c with
  | nil => simp [processPaymentsGo]
  | cons p l ih =>
    have hp : 0 ≤ p.amount := hl p (List.mem_cons_self p l)
    have hl2 : ∀ q ∈ l, 0 ≤ q.amount := fun q hq => hl q (List.mem_cons_of_mem p hq)
    by_cases h : p.status = "paid"
    · simpa [processPaymentsGo, h] using ih c hc hl2
    · by_cases h2 : c ≥ p.amount
      · simp only [processPaymentsGo, if_neg h, if_pos h2]
        rw [List.filter_cons_of_pos (by simp [h])]
        exact List.Forall₂.cons ⟨rfl, le_refl 0, hp⟩ (ih (c - p.amount) (by omega) hl2)
      · simp only [processPaymentsGo, if_neg h, if_neg h2]
        rw [List.filter_cons_of_pos (by simp [h])]
        exact List.Forall₂.cons
          ⟨rfl, show (0 : ℤ) ≤ p.amount - c by omega,
            show p.amount - c ≤ p.amount by omega⟩
          (ih 0 le_rfl hl2)

/-! ### Claims about the allocator -/

/-- C1: for payments with non-negative amounts and credit `C` with
`0 ≤ C ≤ T` (`T` the total amount over the non-paid payments), the sum of
the `amountToPay` values emitted by `processPayments` equals
`T - min(C, sum of the pending payments' amounts)`. -/
theorem allocation_conserves_mass (payments : List Payment) (C : ℤ)
    (hamounts : ∀ p ∈ payments, 0 ≤ p.amount) (hC0 : 0 ≤ C)
    (hCT : C ≤ sumNonpaidAmounts payments) :
    ((processPayments payments C).map PaymentInstruction.amountToPay).sum =
      sumNonpaidAmounts payments - min C (sumNonpaidAmounts payments) := by
  unfold processPayments
  rw [← sumNonpaidAmounts_reverse payments]
  exact processPaymentsGo_sum payments.reverse C hC0
    fun p hp => hamounts p (List.mem_reverse.mp hp)

/-- Witness for C1 at a concrete input: one pending payment of 100, one paid
payment of 50, credit 30. -/
theorem allocation_conserves_mass_witness :
    ((processPayments [⟨"p1", 100, "pending"⟩, ⟨"p2", 50, "paid"⟩] 30).map
        PaymentInstruction.amountToPay).sum =
      sumNonpaidAmounts [⟨"p1", 100, "pending"⟩, ⟨"p2", 50, "paid"⟩] -
        min 30 (sumNonpaidAmounts [⟨"p1", 100, "pending"⟩, ⟨"p2", 50, "paid"⟩]) :=
  allocation_conserves_mass [⟨"p1", 100, "pending"⟩, ⟨"p2", 50, "paid"⟩] 30
    (by decide) (by decide) (by decide)

/-- C4: the allocator's output has exactly one instruction per non-paid
payment (in reversed input order, zero-amount instructions included), none
for a paid payment, and a paid payment consumes no credit (dropping the paid
payments leaves the output unchanged). -/
theorem allocator_output_exactly_nonpaid (payments : List Payment) (C : ℤ) :
    (processPayments payments C).map PaymentInstruction.payment_id =
      ((payments.filter fun p => p.status != "paid").reverse).map Payment.id ∧
    processPayments payments C =
      processPayments (payments.filter fun p => p.status != "paid") C := by
  constructor
  · rw [← List.filter_reverse]
    exact processPaymentsGo_map_payment_id payments.reverse C
  · unfold processPayments
    rw [← List.filter_reverse]
    exact (processPaymentsGo_filter payments.reverse C).symm

/-- C5: with non-negative amounts and non-negative credit, every emitted
`amountToPay` is a non-negative integer not exceeding the amount of the
corresponding (positionally matched, reversed non-paid) payment. -/
theorem allocator_amount_bounds (payments : List Payment) (C : ℤ)
    (hamounts : ∀ p ∈ payments, 0 ≤ p.amount) (hC : 0 ≤ C) :
    List.Forall₂
      (fun i p => i.payment_id = p.id ∧ 0 ≤ i.amountToPay ∧ i.amountToPay ≤ p.amount)
      (processPayments payments C)
      ((payments.filter fun p => p.status != "paid").reverse) := by
  unfold processPayments
  rw [← List.filter_reverse]
  exact processPaymentsGo_bounds payments.reverse C hC
    fun p hp => hamounts p (List.mem_reverse.mp hp)

/-- Witness for C5 at a concrete input: payments 200 and 300 (pending),
credit 250. -/
theorem allocator_amount_bounds_witness :
    List.Forall₂
      (fun (i : PaymentInstruction) (p : Payment) =>
        i.payment_id = p.id ∧ 0 ≤ i.amountToPay ∧ i.amountToPay ≤ p.amount)
      (processPayments [⟨"a", 200, "pending"⟩, ⟨"b", 300, "pending"⟩] 250)
      (([(⟨"a", 200, "pending"⟩ : Payment), ⟨"b", 300, "pending"⟩].filter
          fun p => p.status != "paid").reverse) :=
  allocator_amount_bounds [⟨"a", 200, "pending"⟩, ⟨"b", 300, "pending"⟩] 250
    (by decide) (by decide)

/-- C8: the allocator consumes credit starting from the last payment of the
input sequence: appending a non-paid payment makes it the first one
processed — it heads the emitted instructions, and the rest of the list is
allocated (still back to front) with the credit it left over. -/
theorem allocator_reverse_order_step (ps : List Payment) (p : Payment) (c : ℤ)
    (h : p.status ≠ "paid") :
    processPayments (ps ++ [p]) c =
      (if c ≥ p.amount then (⟨p.id, 0⟩ : PaymentInstruction)
        else ⟨p.id, p.amount - c⟩) ::
        processPayments ps (if c ≥ p.amount then c - p.amount else 0) := by
  unfold processPayments
  rw [List.reverse_append]
  by_cases h2 : c ≥ p.amount
  · simp [processPaymentsGo, h, h2]
  · simp [processPaymentsGo, h, h2]

/-- Witness for C8 at a concrete input: a single pending payment of 100
appended to the empty list, credit 30. -/
theorem allocator_reverse_order_step_witness :
    processPayments ([] ++ [(⟨"a", 100, "pending"⟩ : Payment)]) 30 =
      (if (30 : ℤ) ≥ 100 then (⟨"a", 0⟩ : PaymentInstruction)
        else ⟨"a", 100 - 30⟩) ::
        processPayments [] (if (30 : ℤ) ≥ 100 then 30 - 100 else 0) :=
  allocator_reverse_order_step [] ⟨"a", 100, "pending"⟩ 30 (by decide)

/-- C9: `processPayments` mutates its input — `payments.reverse()` reverses
the caller's array in place, so after the call the array holds the reversed
sequence; a second call on that array therefore walks the payments in the
original front-to-back order, and this can emit different amounts, shown at
a concrete input. -/
theorem processPayments_mutates_input :
    (∀ (ps : List Payment) (c : ℤ), (processPaymentsMut ps c).2 = ps.reverse) ∧
    (∀ (ps : List Payment) (c c2 : ℤ),
      processPayments (processPaymentsMut ps c).2 c2 = processPaymentsGo ps c2) ∧
    processPayments
        (processPaymentsMut [⟨"a", 200, "pending"⟩, ⟨"b", 300, "pending"⟩] 250).2 250 ≠
      processPayments [⟨"a", 200, "pending"⟩, ⟨"b", 300, "pending"⟩] 250 := by
  refine ⟨fun ps c => rfl, fun ps c c2 => ?_, by decide⟩
  show processPaymentsGo ps.reverse.reverse c2 = processPaymentsGo ps c2
  rw [List.reverse_reverse]

/-- Evaluation of `jsRound` at an integer: rounding an exact integer is the
identity. -/
theorem jsRound_intCast (m : ℤ) : jsRound (m : ℚ) = m := by
  unfold jsRound
  rw [add_comm, Int.floor_add_int]
  norm_num

/-- C6: converting a non-negative integer amount from USD to CLP (multiply
by the rate, rounding) and back (divide by the rate, rounding) through
`normalizePayment` lands within ±1 of the original amount (here in fact
exactly on it). -/
theorem usd_clp_roundtrip (p : Payment) (h : 0 ≤ p.amount) :
    |(normalizePayment (normalizePayment p (dollarInCLP : ℚ))
        (1 / (dollarInCLP : ℚ))).amount - p.amount| ≤ 1 := by
  have h1 : (normalizePayment p (dollarInCLP : ℚ)).amount = p.amount * 800 := by
    show jsRound ((p.amount : ℚ) * ((800 : ℤ) : ℚ)) = p.amount * 800
    rw [show ((p.amount : ℚ) * ((800 : ℤ) : ℚ)) = ((p.amount * 800 : ℤ) : ℚ) by
      push_cast; ring]
    exact jsRound_intCast (p.amount * 800)
  have h2 : (normalizePayment (normalizePayment p (dollarInCLP : ℚ))
      (1 / (dollarInCLP : ℚ))).amount = p.amount := by
    show jsRound (((normalizePayment p (dollarInCLP : ℚ)).amount : ℚ) *
      (1 / ((800 : ℤ) : ℚ))) = p.amount
    rw [h1]
    rw [show (((p.amount * 800 : ℤ) : ℚ) * (1 / ((800 : ℤ) : ℚ))) = ((p.amount : ℤ) : ℚ) by
      push_cast; ring]
    exact jsRound_intCast p.amount
  rw [h2]
  simp

/-- Witness for C6 at a concrete input: amount 7. -/
theorem usd_clp_roundtrip_witness :
    |(normalizePayment (normalizePayment ⟨"p1", 7, "pending"⟩ (dollarInCLP : ℚ))
        (1 / (dollarInCLP : ℚ))).amount - 7| ≤ 1 :=
  usd_clp_roundtrip ⟨"p1", 7, "pending"⟩ (by decide)

/-- C2 counterexample: an invoice in currency `"EUR"` under an organization
whose canonical currency is `"USD"` is NOT passed through unchanged —
`normalizeOrgCurrency` switches on the organization currency only, so the
`"USD"` branch divides the amount by 800: amount 800 becomes 1, not 800. -/
theorem unknown_currency_passthrough_cex :
    normalizeOrgCurrency
        { orgCurrency := "USD"
          invoices := [⟨"i1", 800, "o1", "EUR", "received", none, none⟩] } =
      [⟨"i1", 1, "o1", "USD", "received", none, none⟩] ∧
    (⟨"i1", 1, "o1", "USD", "received", none, none⟩ : Invoice).amount ≠ 800 := by
  constructor
  · simp [normalizeOrgCurrency, jsRound, dollarInCLP]
    norm_num
  · decide

/-- C2 (amended): the passthrough is decided by the target (organization)
currency alone — when it is neither `"CLP"` nor `"USD"`, every invoice of
the batch passes through unchanged and nothing fails; the source currency is
never consulted. -/
theorem unknown_target_currency_passthrough (orgBatch : OrgBatch)
    (h1 : orgBatch.orgCurrency ≠ "CLP") (h2 : orgBatch.orgCurrency ≠ "USD") :
    normalizeOrgCurrency orgBatch = orgBatch.invoices := by
  unfold normalizeOrgCurrency
  simp [h1, h2]

/-- Witness for the amended C2 at a concrete input: organization currency
`"EUR"`. -/
theorem unknown_target_currency_passthrough_witness :
    normalizeOrgCurrency
        { orgCurrency := "EUR"
          invoices := [⟨"i1", 800, "o1", "USD", "received", none, none⟩] } =
      [(⟨"i1", 800, "o1", "USD", "received", none, none⟩ : Invoice)] :=
  unknown_target_currency_passthrough
    { orgCurrency := "EUR"
      invoices := [⟨"i1", 800, "o1", "USD", "received", none, none⟩] }
    (by decide) (by decide)

/-- C3 counterexample: in `second-test.ts`, a failing organization-currency
lookup is NOT fail-soft — with a single invoice whose organization's lookup
fails, `normalizeInvoicesCurrency` fails as a whole instead of passing the
invoice through in its original currency. -/
theorem lookup_failure_fail_soft_cex :
    (normalizeInvoicesCurrencyT (fun _ => .error .fetchError)
        [⟨"i1", 100, "org1", "USD", "received", none, none⟩]).1 =
      .error .fetchError ∧
    (normalizeInvoicesCurrencyT (fun _ => .error .fetchError)
        [⟨"i1", 100, "org1", "USD", "received", none, none⟩]).1 ≠
      .ok [⟨"i1", 100, "org1", "USD", "received", none, none⟩] := by
  refine ⟨rfl, ?_⟩
  intro hcontra
  rw [show (normalizeInvoicesCurrencyT (fun _ => .error .fetchError)
      [⟨"i1", 100, "org1", "USD", "received", none, none⟩]).1 =
      Except.error LookupError.fetchError from rfl] at hcontra
  exact Except.noConfusion hcontra

/-- C3 (amended): the fail-soft behaviour belongs to the `part_000`
iteration's per-invoice `normalizeCurrency`: when the lookup for the
invoice's organization fails, the invoice is returned unchanged (in its
original currency) and normalization does not fail; in `second-test.ts` the
same lookup failure instead fails the whole run. -/
theorem part000_lookup_failure_fail_soft (lookup : String → Except LookupError String)
    (inv : Invoice) (e : LookupError)
    (h : lookup inv.organization_id = .error e) :
    normalizeCurrencyP0 lookup inv = inv := by
  unfold normalizeCurrencyP0
  rw [h]

/-- Witness for the amended C3 at a concrete input. -/
theorem part000_lookup_failure_fail_soft_witness :
    normalizeCurrencyP0 (fun _ => .error .fetchError)
        ⟨"i1", 100, "org1", "USD", "received", none, none⟩ =
      ⟨"i1", 100, "org1", "USD", "received", none, none⟩ :=
  part000_lookup_failure_fail_soft (fun _ => .error .fetchError)
    ⟨"i1", 100, "org1", "USD", "received", none, none⟩ .fetchError rfl

/-! ### Helper lemmas about the grouped normalizer's lookups -/

theorem insertSorted_perm (s : String) (l : List String) :
    List.Perm (insertSorted s l) (s :: l) := by
  induction l with
  | nil => exact List.Perm.refl _
  | cons t ts ih =>
    unfold insertSorted
    by_cases h : s ≤ t
    · rw [if_pos h]
    · rw [if_neg h]
      exact (ih.cons t).trans (List.Perm.swap s t ts)

theorem sortKeys_perm (l : List String) : List.Perm (sortKeys l) l := by
  induction l with
  | nil => exact List.Perm.refl _
  | cons k ks ih => exact (insertSorted_perm k (sortKeys ks)).trans (ih.cons k)

theorem orgKeysSorted_perm_dedup (invoices : List Invoice) :
    List.Perm (orgKeysSorted invoices) (invoices.map Invoice.organization_id).dedup :=
  sortKeys_perm _

theorem normalizeGroupsGo_trace_of_ok (lookup : String → Except LookupError String)
    (invoices : List Invoice) (ks : List String)
    (h : ∀ k ∈ ks, (lookup k).isOk = true) :
    (normalizeGroupsGo lookup invoices ks).2 = ks := by
  induction ks with
  | nil => rfl
  | cons k ks ih =>
    have hk : (lookup k).isOk = true := h k (List.mem_cons_self k ks)
    unfold normalizeGroupsGo
    cases hlk : lookup k with
    | error e => rw [hlk] at hk; exact absurd hk (by simp [Except.isOk, Except.toBool])
    | ok cur =>
      have htail := ih fun q hq => h q (List.mem_cons_of_mem k hq)
      cases hrec : normalizeGroupsGo lookup invoices ks with
      | mk res tr =>
        rw [hrec] at htail
        cases res with
        | error e => simpa using htail
        | ok rest => simpa using htail

/-- C7: when every needed lookup succeeds, the normalizer issues exactly one
settings lookup per distinct `organization_id` occurring in the batch,
however many invoices that organization has: the lookup trace is a
permutation of the deduplicated list of organization ids. -/
theorem one_lookup_per_distinct_org (lookup : String → Except LookupError String)
    (invoices : List Invoice)
    (h : ∀ k ∈ orgKeysSorted invoices, (lookup k).isOk = true) :
    List.Perm (normalizeInvoicesCurrencyT lookup invoices).2
      (invoices.map Invoice.organization_id).dedup := by
  unfold normalizeInvoicesCurrencyT
  rw [normalizeGroupsGo_trace_of_ok lookup invoices (orgKeysSorted invoices) h]
  exact orgKeysSorted_perm_dedup invoices

/-- Witness for C7 at a concrete input: two invoices of the same
organization, an always-succeeding lookup. -/
theorem one_lookup_per_distinct_org_witness :
    List.Perm
      (normalizeInvoicesCurrencyT (fun _ => .ok "CLP")
        [⟨"i1", 100, "org1", "CLP", "received", none, none⟩,
         ⟨"i2", 70, "org1", "CLP", "received", none, none⟩]).2
      ([⟨"i1", 100, "org1", "CLP", "received", none, none⟩,
        (⟨"i2", 70, "org1", "CLP", "received", none, none⟩ : Invoice)].map
          Invoice.organization_id).dedup :=
  one_lookup_per_distinct_org (fun _ => .ok "CLP")
    [⟨"i1", 100, "org1", "CLP", "received", none, none⟩,
     ⟨"i2", 70, "org1", "CLP", "received", none, none⟩]
    (by decide)

/-! ### Sequential settlement -/

theorem runInstructionsSeq_fail
    (submit : PaymentInstruction → Except PaymentError PaymentResponse)
    (pre post : List PaymentInstruction) (bad : PaymentInstruction)
    (e : PaymentError)
    (hpre : ∀ i ∈ pre, ∃ r, submit i = Except.ok r)
    (hbad : submit bad = Except.error e) :
    runInstructionsSeq submit (pre ++ bad :: post) =
      (Except.error e, pre ++ [bad]) := by
  induction pre with
  | nil => simp [runInstructionsSeq, hbad]
  | cons i rest ih =>
    obtain ⟨r, hr⟩ := hpre i (List.mem_cons_self i rest)
    have htail := ih fun q hq => hpre q (List.mem_cons_of_mem i hq)
    rw [List.cons_append]
    unfold runInstructionsSeq
    rw [hr, htail]
    rfl

/-- C10: settlement is fail-fast across the whole run — the flattened
instruction list is submitted strictly sequentially, and the first
instruction whose submission fails short-circuits the chain: the result of
the run is that single error, and the trace of submitted instructions stops
at the failing one, so no later instruction (also of a different invoice) is
ever submitted. -/
theorem settlement_fail_fast
    (submit : PaymentInstruction → Except PaymentError PaymentResponse)
    (invoices : List Invoice)
    (pre post : List PaymentInstruction) (bad : PaymentInstruction)
    (e : PaymentError)
    (hplan : paymentPlan invoices = pre ++ bad :: post)
    (hpre : ∀ i ∈ pre, ∃ r, submit i = Except.ok r)
    (hbad : submit bad = Except.error e) :
    payInvoices submit invoices = (Except.error e, pre ++ [bad]) := by
  unfold payInvoices
  rw [hplan]
  exact runInstructionsSeq_fail submit pre post bad e hpre hbad

/-- Witness for C10 at a concrete input: one received invoice with two
pending payments; submitting the first emitted instruction (`"p2"`) fails,
so the second (`"p1"`, a different payment of the same run) is never
submitted and the run's result is the single POST error. -/
theorem settlement_fail_fast_witness :
    payInvoices
        (fun i => if i.payment_id == "p2" then .error .postError else .ok ⟨"paid"⟩)
        [⟨"I1", 150, "o1", "CLP", "received", none,
          some [⟨"p1", 100, "pending"⟩, ⟨"p2", 50, "pending"⟩]⟩] =
      (Except.error PaymentError.postError, [] ++ [⟨"p2", 50⟩]) :=
  settlement_fail_fast
    (fun i => if i.payment_id == "p2" then .error .postError else .ok ⟨"paid"⟩)
    [⟨"I1", 150, "o1", "CLP", "received", none,
      some [⟨"p1", 100, "pending"⟩, ⟨"p2", 50, "pending"⟩]⟩]
    [] [⟨"p1", 100⟩] ⟨"p2", 50⟩ .postError
    (by decide) (by simp) rfl

end FpTs
